import Mathlib

/-!
# Verification of the fastapi-permissions core

Shallow embedding of `fastapi_permissions/__init__.py`: ACL normalization,
principal normalization, the permission decision algorithm
(`has_permission`), permission enumeration (`list_permissions`) and the
authorization dependency wrapper (`permission_dependency`).

Modelling conventions:
* Python strings are `String`; Python sets of principals are `Finset String`.
* An ACL entry `(action, principal, permissions)` is the structure `ACE`.
* The `permissions` field of an entry is `PermSpec`: a bare string, a set
  of strings, or the universal sentinel `All` (`_AllPermissions`).
* A value handed to the membership test as "the requested permission" is
  `PermElem`: either a permission name (a string) or the sentinel object
  itself (`list_permissions` passes the sentinel object back into
  `has_permission`).
* Zero-argument Python callables become `Unit → _` functions; a duck-typed
  attribute that may be absent becomes an `Option` field.
* All functions are total, mirroring the code, which raises no exception on
  any of the modelled shapes.
-/

namespace FastapiPermissions

/-- `Allow = "Allow"`: acl "allow" action. -/
def Allow : String := "Allow"

/-- `Deny = "Deny"`: acl "deny" action. -/
def Deny : String := "Deny"

/-- `Everyone = "system:everyone"`: user principal for everyone. -/
def Everyone : String := "system:everyone"

/-- `Authenticated = "system:authenticated"`: authenticated user principal. -/
def Authenticated : String := "system:authenticated"

/-- The `permissions` field of an ACL entry: a single permission name,
a set of permission names, or the `All = _AllPermissions()` sentinel. -/
inductive PermSpec where
  | single (s : String)
  | set (ps : List String)
  | all
deriving DecidableEq

/-- A value playing the role of "a requested permission": a permission name,
or the `All` sentinel object (which `list_permissions` feeds back into
`has_permission`). -/
inductive PermElem where
  | name (s : String)
  | allSentinel
deriving DecidableEq

/-- One ACL entry, the Python tuple `(action, principal, permissions)`. -/
structure ACE where
  action : String
  principal : String
  permissions : PermSpec
deriving DecidableEq

/-- An access control list: an ordered sequence of entries. -/
abbrev ACL := List ACE

/-- The `principals` attribute of a user: a plain collection, or a
zero-argument callable producing one. -/
inductive PrincipalsAttr where
  | value (ps : List String)
  | func (f : Unit → List String)

/-- A user: a value that optionally exposes a `principals` attribute
(`none` models `getattr(user, "principals", [])` finding nothing). -/
structure User where
  principals : Option PrincipalsAttr

/-- The `__acl__` attribute of a resource: a plain ACL value, or a
zero-argument callable producing one. -/
inductive ACLAttr where
  | value (acl : ACL)
  | func (f : Unit → ACL)

/-- The duck-typed shape of a resource, as probed by `is_like_list`:
a string instance, a non-string iterable (whose iteration yields the given
entries), or a non-iterable value. -/
inductive ResShape where
  | strVal (s : String)
  | iterable (entries : ACL)
  | plain

/-- A resource: an optional `__acl__` attribute (`none` models both a
missing attribute and `__acl__ = None`, which the code treats identically)
together with its duck-typed shape. -/
structure Resource where
  acl_attr : Option ACLAttr
  shape : ResShape

/-- `is_like_list(something)`: iterable but not a string. -/
def is_like_list (something : Resource) : Bool :=
  match something.shape with
  | ResShape.strVal _ => false
  | ResShape.iterable _ => true
  | ResShape.plain => false

/-- The entries a non-string iterable resource yields when treated as an
ACL; unreachable (and `[]`) for the other shapes. -/
def resourceEntries (resource : Resource) : ACL :=
  match resource.shape with
  | ResShape.iterable es => es
  | _ => []

/-- `normalize_acl(resource)`: the `__acl__` attribute is consulted first
(called if callable, returned as-is if non-null), else an iterable
non-string resource is itself the ACL, else the ACL is empty. -/
def normalize_acl (resource : Resource) : ACL :=
  match resource.acl_attr with
  | some (ACLAttr.func f) => f ()
  | some (ACLAttr.value acl) => acl
  | none =>
    if is_like_list resource then resourceEntries resource
    else []

/-- A raw Python list of ACL entries used where a resource is expected:
it has no `__acl__` attribute, is iterable and is not a string. -/
def aclAsResource (acl : ACL) : Resource :=
  { acl_attr := none, shape := ResShape.iterable acl }

/-- The collection the `principals` attribute resolves to:
`getattr(user, "principals", [])`, invoked if callable. -/
def resolvePrincipals (user : User) : List String :=
  match user.principals with
  | none => []
  | some (PrincipalsAttr.value ps) => ps
  | some (PrincipalsAttr.func f) => f ()

/-- `normalize_principals(user)`: an empty (or missing) collection gives
exactly the singleton of `Everyone`; otherwise `Everyone` and
`Authenticated` are united with the user's own principals. -/
def normalize_principals (user : User) : Finset String :=
  let user_principals := resolvePrincipals user
  if user_principals.isEmpty then {Everyone}
  else ({Everyone, Authenticated} : Finset String) ∪ user_principals.toFinset

/-- The membership test `requested_permission in permissions` of
`has_permission`, after the coercion of a bare string to a one-element set.
The sentinel (`_AllPermissions.__contains__`) contains anything; the
sentinel object itself, used as the requested value, is identical to no
string, so it is contained only in the sentinel. -/
def inPermissions (requested : PermElem) (permissions : PermSpec) : Bool :=
  match permissions, requested with
  | PermSpec.all, _ => true
  | PermSpec.single s, PermElem.name r => decide (r = s)
  | PermSpec.single _, PermElem.allSentinel => false
  | PermSpec.set ps, PermElem.name r => decide (r ∈ ps)
  | PermSpec.set _, PermElem.allSentinel => false

/-- The `for action, principal, permissions in acl` loop of
`has_permission`: an entry whose permissions contain the request and whose
principal is held decides the outcome (`action == Allow`); any other entry
is skipped; an exhausted list yields `False`. -/
def hasPermissionAcl (user_principals : Finset String) (requested : PermElem) :
    ACL → Bool
  | [] => false
  | e :: rest =>
    if inPermissions requested e.permissions then
      if e.principal ∈ user_principals then decide (e.action = Allow)
      else hasPermissionAcl user_principals requested rest
    else hasPermissionAcl user_principals requested rest

/-- `has_permission(user, requested_permission, resource)`. -/
def has_permission (user : User) (requested : PermElem) (resource : Resource) :
    Bool :=
  hasPermissionAcl (normalize_principals user) requested
    (normalize_acl resource)

/-- `is_like_list` applied to a `permissions` field inside
`list_permissions`: a string is not list-like, a set is, and the sentinel
object (which defines no `__iter__`) is not. -/
def is_like_list_perm : PermSpec → Bool
  | PermSpec.single _ => false
  | PermSpec.set _ => true
  | PermSpec.all => false

/-- One step of the `list_permissions` comprehension: a non-list-like
permissions field is wrapped into a one-element set, a set contributes its
elements.  Elements are `PermElem`s: names, or the sentinel object. -/
def permElems : PermSpec → List PermElem
  | PermSpec.single s => [PermElem.name s]
  | PermSpec.set ps => ps.map PermElem.name
  | PermSpec.all => [PermElem.allSentinel]

/-- `available_permissions`: the set of all elements of all (wrapped)
permissions fields of the ACL.  The Python `set(...)` de-duplicates;
iteration order of a Python set is unspecified, modelled here by keeping
each element once. -/
def available_permissions (acl : ACL) : List PermElem :=
  (acl.flatMap fun e => permElems e.permissions).dedup

/-- `str(p)` for an element of `available_permissions`: a name prints as
itself; the sentinel's `__str__` yields `"permissions:*"`. -/
def permStr : PermElem → String
  | PermElem.name s => s
  | PermElem.allSentinel => "permissions:*"

/-- `list_permissions(user, resource)`: the dict comprehension, as the
ordered list of `(str(p), has_permission(user, p, acl))` assignments.
Note that the already-normalized `acl` list is passed back in as the
resource argument. -/
def list_permissions (user : User) (resource : Resource) :
    List (String × Bool) :=
  let acl := normalize_acl resource
  (available_permissions acl).map fun p =>
    (permStr p, has_permission user p (aclAsResource acl))

/-- Lookup in the dict built from an ordered list of key/value assignments:
a later assignment to the same key overwrites an earlier one. -/
def dictFind (d : List (String × Bool)) (k : String) : Option Bool :=
  (d.reverse.find? fun kv => decide (kv.1 = k)).map fun kv => kv.2

/-- The exception raised on insufficient permissions:
HTTP 403 with a `WWW-Authenticate: Bearer` challenge header. -/
structure HTTPException where
  status_code : Nat
  detail : String
  headers : List (String × String)
deriving DecidableEq

/-- The default `permission_exception`. -/
def permission_exception : HTTPException :=
  { status_code := 403
    detail := "Insufficient permissions"
    headers := [("WWW-Authenticate", "Bearer")] }

/-- The inner `permission_dependency` of `permission_dependency_factory`,
applied to the resolved user and resource: a grant on success, the
configured exception on failure. -/
def permission_dependency {G : Type} (permission : PermElem)
    (grant_class : User → Resource → G) (pexc : HTTPException)
    (user : User) (resource : Resource) : Except HTTPException G :=
  if has_permission user permission resource then
    Except.ok (grant_class user resource)
  else
    Except.error pexc

/-- The `Grant` namedtuple pairing user and resource. -/
structure Grant where
  user : User
  resource : Resource

/-- The permission names mentioned explicitly (as a bare string or inside a
set) by a permissions field; the sentinel mentions none explicitly. -/
def entryNames : PermSpec → List String
  | PermSpec.single s => [s]
  | PermSpec.set ps => ps
  | PermSpec.all => []

/-- All permission names mentioned explicitly across an ACL's entries. -/
def explicitNames (acl : ACL) : List String :=
  acl.flatMap fun e => entryNames e.permissions

/-- Whether some entry's permissions field is the `All` sentinel. -/
def sentinelAppears (acl : ACL) : Bool :=
  acl.any fun e => decide (e.permissions = PermSpec.all)

/-- A user with no `principals` attribute. -/
def anonUser : User := { principals := none }

/-- A user whose `principals` attribute is the plain list `["role:admin"]`. -/
def adminUser : User := { principals := some (PrincipalsAttr.value ["role:admin"]) }

/-- A small concrete ACL used by witnesses. -/
def demoAcl : ACL := [{ action := Allow, principal := Everyone, permissions := PermSpec.single "view" }]

/-- A resource with no `__acl__` attribute that is not iterable. -/
def plainResource : Resource := { acl_attr := none, shape := ResShape.plain }

/-- A resource whose `__acl__` is a zero-argument callable. -/
def funcResource : Resource := { acl_attr := some (ACLAttr.func fun _ => demoAcl), shape := ResShape.plain }

/-- A resource whose `__acl__` is a plain value. -/
def valueResource : Resource := { acl_attr := some (ACLAttr.value demoAcl), shape := ResShape.plain }

/-! ## Shared lemmas -/

/-- `Everyone` is held by every actor, anonymous or not. -/
theorem everyone_mem_normalize_principals (u : User) :
    Everyone ∈ normalize_principals u := by
  by_cases h : (resolvePrincipals u).isEmpty <;>
    simp [normalize_principals, h, Finset.mem_union, Finset.mem_insert]

/-- The decision loop agrees with a first-match search: the first entry
whose permissions contain the request and whose principal is held decides
via `action == Allow`; no such entry yields `false`. -/
theorem hasPermissionAcl_eq_find (prs : Finset String) (p : PermElem)
    (acl : ACL) :
    hasPermissionAcl prs p acl =
      match acl.find?
          (fun e => inPermissions p e.permissions && decide (e.principal ∈ prs)) with
      | some e => decide (e.action = Allow)
      | none => false := by
  induction acl with
  | nil => rfl
  | cons e rest ih =>
    by_cases h1 : inPermissions p e.permissions = true
    · by_cases h2 : e.principal ∈ prs
      · simp [hasPermissionAcl, List.find?_cons, h1, h2]
      · simp [hasPermissionAcl, List.find?_cons, h1, h2, ih]
    · simp [hasPermissionAcl, List.find?_cons, h1, ih]

/-- Feeding an already-normalized ACL back in as the resource argument does
not change the decision. -/
theorem has_permission_aclAsResource (u : User) (q : PermElem) (r : Resource) :
    has_permission u q (aclAsResource (normalize_acl r)) = has_permission u q r :=
  rfl

/-- A name is an element of a wrapped permissions field iff the field
mentions it explicitly. -/
theorem name_mem_permElems (s : String) (P : PermSpec) :
    PermElem.name s ∈ permElems P ↔ s ∈ entryNames P := by
  cases P <;> simp [permElems, entryNames]

/-- The sentinel is an element of a wrapped permissions field iff the field
is the sentinel itself. -/
theorem sentinel_mem_permElems (P : PermSpec) :
    PermElem.allSentinel ∈ permElems P ↔ P = PermSpec.all := by
  cases P <;> simp [permElems]

/-- Membership in `available_permissions`. -/
theorem mem_available_permissions (acl : ACL) (p : PermElem) :
    p ∈ available_permissions acl ↔ ∃ e ∈ acl, p ∈ permElems e.permissions := by
  simp [available_permissions, List.mem_dedup, List.mem_flatMap]

/-- A name is available iff it is mentioned explicitly in the ACL. -/
theorem name_mem_available (acl : ACL) (s : String) :
    PermElem.name s ∈ available_permissions acl ↔ s ∈ explicitNames acl := by
  simp [mem_available_permissions, explicitNames, List.mem_flatMap,
    name_mem_permElems]

/-- The sentinel is available iff some entry carries it. -/
theorem sentinel_mem_available (acl : ACL) :
    PermElem.allSentinel ∈ available_permissions acl ↔
      sentinelAppears acl = true := by
  simp [mem_available_permissions, sentinelAppears, List.any_eq_true,
    sentinel_mem_permElems]

/-- When the literal name `"permissions:*"` is mentioned explicitly nowhere
in the ACL, checking the sentinel object and checking the literal name give
the same decision: both match exactly the sentinel-carrying entries. -/
theorem hasPermissionAcl_sentinel_eq_literal (prs : Finset String)
    (acl : ACL) (h : "permissions:*" ∉ explicitNames acl) :
    hasPermissionAcl prs PermElem.allSentinel acl =
      hasPermissionAcl prs (PermElem.name "permissions:*") acl := by
  induction acl with
  | nil => rfl
  | cons e rest ih =>
    rw [show explicitNames (e :: rest) =
        entryNames e.permissions ++ explicitNames rest from by
      simp [explicitNames]] at h
    rw [List.mem_append] at h
    push_neg at h
    obtain ⟨h1, h2⟩ := h
    cases hp : e.permissions with
    | all =>
      by_cases hm : e.principal ∈ prs <;>
        simp [hasPermissionAcl, inPermissions, hp, hm, ih h2]
    | single s =>
      rw [hp] at h1
      have hne : ¬("permissions:*" = s) := by simpa [entryNames] using h1
      simp [hasPermissionAcl, inPermissions, hp, hne, ih h2]
    | set ps =>
      rw [hp] at h1
      have hne : "permissions:*" ∉ ps := by simpa [entryNames] using h1
      simp [hasPermissionAcl, inPermissions, hp, hne, ih h2]

/-! ## Claims -/

/-- C1: `has_permission` returns `true` iff the first ACL entry (in
original order) whose permissions contain the requested permission and
whose principal is a member of the normalized principal set has action
`Allow`; with no such entry it returns `false` (implicit deny).  An entry
whose permissions match but whose principal is not held is skipped by the
search predicate, and evaluation continues. -/
theorem C1_has_permission_first_match (u : User) (p : PermElem)
    (r : Resource) :
    has_permission u p r =
      match (normalize_acl r).find?
          (fun e => inPermissions p e.permissions &&
            decide (e.principal ∈ normalize_principals u)) with
      | some e => decide (e.action = Allow)
      | none => false :=
  hasPermissionAcl_eq_find (normalize_principals u) p (normalize_acl r)

/-- C2: `normalize_principals` returns exactly the singleton of `Everyone`
when the user lacks a `principals` attribute or the (possibly lazily
invoked) collection is empty, and otherwise the union of `Everyone`,
`Authenticated` and the collection, duplicates collapsed.  Being a total
function, it raises nothing for a user lacking the attribute. -/
theorem C2_normalize_principals_cases (u : User) :
    (u.principals = none → normalize_principals u = {Everyone}) ∧
    (resolvePrincipals u = [] → normalize_principals u = {Everyone}) ∧
    (resolvePrincipals u ≠ [] →
      normalize_principals u =
        ({Everyone, Authenticated} : Finset String) ∪
          (resolvePrincipals u).toFinset) := by
  refine ⟨?_, ?_, ?_⟩
  · intro h
    simp [normalize_principals, resolvePrincipals, h]
  · intro h
    simp [normalize_principals, h]
  · intro h
    simp [normalize_principals, List.isEmpty_iff, h]

/-- Witness for C2: the anonymous user gets exactly the `Everyone`
singleton; a user with principals `["role:admin"]` gets the augmented
union. -/
theorem C2_normalize_principals_cases_witness :
    normalize_principals anonUser = {Everyone} ∧
    normalize_principals adminUser =
      ({Everyone, Authenticated} : Finset String) ∪
        (resolvePrincipals adminUser).toFinset :=
  ⟨(C2_normalize_principals_cases anonUser).1 rfl,
   (C2_normalize_principals_cases adminUser).2.2 (by decide)⟩

/-- C3: `normalize_acl` resolves in fixed priority order: a non-null
`__acl__` attribute wins (called when callable, returned as-is otherwise);
else an iterable non-string resource is itself the ACL; else the ACL is
empty.  Being a total function, it raises nothing. -/
theorem C3_normalize_acl_priority (r : Resource) :
    (∀ f, r.acl_attr = some (ACLAttr.func f) → normalize_acl r = f ()) ∧
    (∀ acl, r.acl_attr = some (ACLAttr.value acl) → normalize_acl r = acl) ∧
    (r.acl_attr = none → is_like_list r = true →
      normalize_acl r = resourceEntries r) ∧
    (r.acl_attr = none → is_like_list r = false → normalize_acl r = []) := by
  refine ⟨?_, ?_, ?_, ?_⟩
  · intro f h
    simp [normalize_acl, h]
  · intro acl h
    simp [normalize_acl, h]
  · intro h1 h2
    simp [normalize_acl, h1, h2]
  · intro h1 h2
    simp [normalize_acl, h1, h2]

/-- Witness for C3: one concrete resource per priority branch. -/
theorem C3_normalize_acl_priority_witness :
    normalize_acl funcResource = demoAcl ∧
    normalize_acl valueResource = demoAcl ∧
    normalize_acl (aclAsResource demoAcl) =
      resourceEntries (aclAsResource demoAcl) ∧
    normalize_acl plainResource = [] :=
  ⟨(C3_normalize_acl_priority funcResource).1 (fun _ => demoAcl) rfl,
   (C3_normalize_acl_priority valueResource).2.1 demoAcl rfl,
   (C3_normalize_acl_priority (aclAsResource demoAcl)).2.2.1 rfl rfl,
   (C3_normalize_acl_priority plainResource).2.2.2 rfl rfl⟩

/-- C4: a resource with no ACL accessor that is not iterable normalizes to
the empty ACL, and consequently `has_permission` returns `false` for every
user and requested permission: the system fails closed instead of
erroring. -/
theorem C4_fails_closed (r : Resource) (h1 : r.acl_attr = none)
    (h2 : is_like_list r = false) :
    normalize_acl r = [] ∧
    ∀ (u : User) (p : PermElem), has_permission u p r = false := by
  have hacl : normalize_acl r = [] := by simp [normalize_acl, h1, h2]
  exact ⟨hacl, fun u p => by simp [has_permission, hacl, hasPermissionAcl]⟩

/-- Witness for C4: the plain resource denies a concrete request. -/
theorem C4_fails_closed_witness :
    normalize_acl plainResource = [] ∧
    has_permission anonUser (PermElem.name "view") plainResource = false :=
  ⟨(C4_fails_closed plainResource rfl rfl).1,
   (C4_fails_closed plainResource rfl rfl).2 anonUser (PermElem.name "view")⟩

/-- C5: against the ACL `[(Allow, Everyone, All)]`, every user (anonymous
included) is granted every requested permission name: the sentinel
contains any name and `Everyone` is held by every actor. -/
theorem C5_allow_everyone_all (u : User) (p : String) :
    has_permission u (PermElem.name p)
      (aclAsResource
        [{ action := Allow, principal := Everyone,
           permissions := PermSpec.all }]) = true := by
  have h := everyone_mem_normalize_principals u
  simp [has_permission, normalize_acl, aclAsResource, is_like_list,
    resourceEntries, hasPermissionAcl, inPermissions, h, Allow]

/-- C7: a sentinel permissions field contributes exactly one element, whose
textual representation is the literal `"permissions:*"`; the result of
`list_permissions` over an ACL whose only entry is `(Allow, Everyone, All)`
has exactly that single key, for every user. -/
theorem C7_sentinel_is_literal_key (u : User) :
    permElems PermSpec.all = [PermElem.allSentinel] ∧
    permStr PermElem.allSentinel = "permissions:*" ∧
    (list_permissions u
        (aclAsResource
          [{ action := Allow, principal := Everyone,
             permissions := PermSpec.all }])).map Prod.fst =
      ["permissions:*"] :=
  ⟨rfl, rfl, rfl⟩

/-- C8: the authorization wrapper returns `grant_class user resource` iff
the check succeeds and signals the configured permission exception iff it
fails; the default exception is HTTP 403 carrying a
`WWW-Authenticate: Bearer` challenge header.  (`has_permission` and
`list_permissions` themselves are total functions returning plain values:
they raise nothing.) -/
theorem C8_dependency_grant_or_raise {G : Type} (perm : PermElem)
    (gc : User → Resource → G) (pexc : HTTPException) (u : User)
    (r : Resource) :
    (permission_dependency perm gc pexc u r = Except.ok (gc u r) ↔
      has_permission u perm r = true) ∧
    (permission_dependency perm gc pexc u r = Except.error pexc ↔
      has_permission u perm r = false) ∧
    permission_exception.status_code = 403 ∧
    permission_exception.headers = [("WWW-Authenticate", "Bearer")] := by
  cases hb : has_permission u perm r with
  | false => simp [permission_dependency, hb, permission_exception]
  | true => simp [permission_dependency, hb, permission_exception]

/-- C9: an entry whose permissions field is the single string `s` matches a
requested name `p` iff `p = s` exactly — the string is coerced to a
one-element set before the containment test, so a substring (such as
requesting `"vi"` against `"view"`) never matches. -/
theorem C9_single_string_exact_match (u : User) (p s act prn : String) :
    has_permission u (PermElem.name p)
      (aclAsResource
        [{ action := act, principal := prn,
           permissions := PermSpec.single s }]) =
      (decide (p = s) && decide (prn ∈ normalize_principals u) &&
        decide (act = Allow)) := by
  by_cases h1 : p = s <;> by_cases h2 : prn ∈ normalize_principals u <;>
    simp [has_permission, normalize_acl, aclAsResource, is_like_list,
      resourceEntries, hasPermissionAcl, inPermissions, h1, h2]

/-- C10: `normalize_acl` is idempotent through the raw-list embedding — a
normalized ACL fed back in as a plain-list resource normalizes to itself —
and therefore `has_permission` against the normalized ACL (the call
`list_permissions` makes) agrees with `has_permission` against the original
resource. -/
theorem C10_normalize_acl_idempotent (r : Resource) :
    normalize_acl (aclAsResource (normalize_acl r)) = normalize_acl r ∧
    ∀ (u : User) (p : PermElem),
      has_permission u p (aclAsResource (normalize_acl r)) =
        has_permission u p r :=
  ⟨rfl, fun _ _ => rfl⟩

/-- An ACL mentioning the literal name `"permissions:*"` explicitly while
also carrying the sentinel: the colliding dict key makes the enumeration
disagree with an independent check. -/
def cexAcl : ACL :=
  [{ action := Allow, principal := Everyone,
     permissions := PermSpec.single "permissions:*" },
   { action := Deny, principal := Everyone, permissions := PermSpec.all }]

/-- C6 counterexample: over `cexAcl`, `list_permissions` maps the key
`"permissions:*"` to `false` (the sentinel element's check, written last,
hits the blanket deny), while an independent check of the permission name
`"permissions:*"` returns `true` (the first entry allows it): a key of the
result does not carry the boolean `check` would independently return. -/
theorem C6_counterexample :
    dictFind (list_permissions anonUser (aclAsResource cexAcl))
        "permissions:*" = some false ∧
    has_permission anonUser (PermElem.name "permissions:*")
        (aclAsResource cexAcl) = true :=
  ⟨rfl, rfl⟩

/-- C6 (amended): provided the literal name `"permissions:*"` is not
mentioned explicitly in an ACL that also carries the sentinel (so no dict
key collides with the sentinel's textual representation), the keys of
`list_permissions` are exactly the permission names mentioned across the
entries — the sentinel contributing its literal representation — and every
key carries the boolean an independent check of that name returns; a name
mentioned in no entry is absent. -/
theorem C6_list_permissions_vs_check (u : User) (r : Resource) (k : String)
    (b : Bool)
    (h : ¬(sentinelAppears (normalize_acl r) = true ∧
           "permissions:*" ∈ explicitNames (normalize_acl r))) :
    ((dictFind (list_permissions u r) k).isSome ↔
      (k ∈ explicitNames (normalize_acl r) ∨
        (sentinelAppears (normalize_acl r) = true ∧ k = "permissions:*"))) ∧
    (dictFind (list_permissions u r) k = some b →
      b = has_permission u (PermElem.name k) r) := by
  constructor
  · rw [dictFind, Option.isSome_map', List.find?_isSome]
    constructor
    · rintro ⟨kv, hkv, hpred⟩
      rw [List.mem_reverse] at hkv
      rw [list_permissions, List.mem_map] at hkv
      obtain ⟨p, hp, hgp⟩ := hkv
      have hk : permStr p = k := by
        have := congrArg Prod.fst hgp
        simpa [decide_eq_true_eq.mp (by simpa using hpred)] using this
      cases p with
      | name s =>
        left
        have hs : s = k := by simpa [permStr] using hk
        rw [← name_mem_available]
        exact hs ▸ hp
      | allSentinel =>
        right
        exact ⟨(sentinel_mem_available _).mp hp, by simpa [permStr] using hk.symm⟩
    · intro hk
      rcases hk with hk | ⟨hsent, hk⟩
      · refine ⟨(permStr (PermElem.name k),
          has_permission u (PermElem.name k)
            (aclAsResource (normalize_acl r))), ?_, by simp [permStr]⟩
        rw [List.mem_reverse, list_permissions, List.mem_map]
        exact ⟨PermElem.name k, (name_mem_available _ _).mpr hk, rfl⟩
      · subst hk
        refine ⟨(permStr PermElem.allSentinel,
          has_permission u PermElem.allSentinel
            (aclAsResource (normalize_acl r))), ?_, by simp [permStr]⟩
        rw [List.mem_reverse, list_permissions, List.mem_map]
        exact ⟨PermElem.allSentinel, (sentinel_mem_available _).mpr hsent, rfl⟩
  · intro hfind
    rw [dictFind, Option.map_eq_some'] at hfind
    obtain ⟨kv, hkv, hval⟩ := hfind
    have hmem : kv ∈ (list_permissions u r).reverse :=
      List.mem_of_find?_eq_some hkv
    have hpred : kv.1 = k := by
      have := List.find?_some hkv
      simpa using this
    rw [List.mem_reverse, list_permissions, List.mem_map] at hmem
    obtain ⟨p, hp, hgp⟩ := hmem
    have hk : permStr p = k := by rw [← hpred, ← hgp]
    have hb : has_permission u p (aclAsResource (normalize_acl r)) = b := by
      rw [← hval, ← hgp]
    cases p with
    | name s =>
      have hs : s = k := by simpa [permStr] using hk
      rw [← hb, hs, has_permission_aclAsResource]
    | allSentinel =>
      have hsent : sentinelAppears (normalize_acl r) = true :=
        (sentinel_mem_available _).mp hp
      have hlit : "permissions:*" ∉ explicitNames (normalize_acl r) :=
        fun hmem => h ⟨hsent, hmem⟩
      have hk' : k = "permissions:*" := by simpa [permStr] using hk.symm
      rw [← hb, hk']
      rw [show has_permission u PermElem.allSentinel
            (aclAsResource (normalize_acl r)) =
          hasPermissionAcl (normalize_principals u) PermElem.allSentinel
            (normalize_acl r) from rfl]
      rw [hasPermissionAcl_sentinel_eq_literal _ _ hlit]
      rfl

/-- Witness for C6 (amended): over the collision-free `demoAcl`, the
enumerated value of the key `"view"` is the decision of an independent
check. -/
theorem C6_list_permissions_vs_check_witness :
    true = has_permission anonUser (PermElem.name "view")
      (aclAsResource demoAcl) :=
  (C6_list_permissions_vs_check anonUser (aclAsResource demoAcl) "view" true
    (by decide)).2 (by decide)

end FastapiPermissions
